import Mathlib

/-!
Shallow embedding of the MediShieldPreCheck repository.

Contract `MediShieldPreCheck.sol`: every FHE ciphertext is modelled by its
plaintext (an `euint8` by a `Nat` below 256, an `ebool` by a `Bool`); an
opaque result handle is modelled by `Option Nat`, where `none` stands for the
all-zero `bytes32` handle of an uninitialized slot and `some c` for a handle
whose authorized decryption yields `c`.  External encrypted inputs carry a
`proofOk` flag recording whether their validity proof verifies against the
value and the calling identity, which is what `FHE.fromExternal` checks; a
failed check reverts the call, modelled by `Except` together with the
revert-aware wrapper `callCheckEligibility`.
-/

namespace MediShield

/-- Category constant `CATEGORY_ELIGIBLE` (contract line 11). -/
def CATEGORY_ELIGIBLE : Nat := 1

/-- Category constant `CATEGORY_MODERATE` (contract line 12). -/
def CATEGORY_MODERATE : Nat := 2

/-- Category constant `CATEGORY_NOT_ELIGIBLE` (contract line 13). -/
def CATEGORY_NOT_ELIGIBLE : Nat := 3

/-- Accounts are modelled by naturals. -/
abbrev Address := Nat

/-- Plaintext semantics of the homomorphic multiplexer `FHE.select`. -/
def fheSelect (cond : Bool) (a b : Nat) : Nat := if cond then a else b

/-- Plaintext semantics of the FHE circuit of `checkEligibility`
(contract lines 45-62): bounds, risk aggregation and the nested select. -/
def evalCategory (age : Nat) (hasHistory hasChronic riskyLifestyle : Bool) : Nat :=
  let lowerBound : Bool := decide (18 ≤ age)
  let upperBound : Bool := decide (age ≤ 64)
  let ageInRange : Bool := lowerBound && upperBound
  let riskFlags : Bool := (hasHistory || hasChronic) || riskyLifestyle
  let eligible : Bool := ageInRange && !riskFlags
  let moderate : Bool := ageInRange && riskFlags
  fheSelect eligible CATEGORY_ELIGIBLE (fheSelect moderate CATEGORY_MODERATE CATEGORY_NOT_ELIGIBLE)

/-- Storage of the contract: the two per-address mappings
`_lastCategory` and `_lastEvaluatedAt` (contract lines 15-16).  A slot whose
`euint8` was never written holds the zero handle, modelled by `none`. -/
structure ContractState where
  lastCategory : Address → Option Nat
  lastEvaluatedAt : Address → Nat

/-- Freshly deployed contract: every mapping slot holds its zero value. -/
def initialState : ContractState :=
  { lastCategory := fun _ => none, lastEvaluatedAt := fun _ => 0 }

/-- An external encrypted input: the plaintext it encrypts and whether its
validity proof verifies against that ciphertext and the calling identity. -/
structure EncInput (α : Type) where
  value : α
  proofOk : Bool
deriving DecidableEq

/-- The one revert cause of `checkEligibility`: a validity proof that fails
to verify inside `FHE.fromExternal`. -/
inductive EvalError
  | proofVerificationError
deriving DecidableEq

/-- Semantics of `FHE.fromExternal` on an `externalEuint8`: reverts when the
proof does not verify, otherwise yields the 8-bit plaintext. -/
def fromExternalU8 (inp : EncInput Nat) : Except EvalError Nat :=
  if inp.proofOk then Except.ok (inp.value % 256) else Except.error EvalError.proofVerificationError

/-- Semantics of `FHE.fromExternal` on an `externalEbool`. -/
def fromExternalBool (inp : EncInput Bool) : Except EvalError Bool :=
  if inp.proofOk then Except.ok inp.value else Except.error EvalError.proofVerificationError

/-- The `EligibilityEvaluated` event (contract line 18). -/
structure EligibilityEvaluated where
  applicant : Address
  categoryHandle : Option Nat
  timestamp : Nat
deriving DecidableEq

/-- The `checkEligibility` entry point (contract lines 30-73): the four
`FHE.fromExternal` conversions in source order, the category circuit, the
two storage writes for `msg.sender`, the returned handle of the stored
category, and the emitted event. -/
def checkEligibility (st : ContractState) (sender : Address) (blockTimestamp : Nat)
    (ageIn : EncInput Nat) (historyIn chronicIn lifestyleIn : EncInput Bool) :
    Except EvalError (ContractState × Option Nat × EligibilityEvaluated) :=
  match fromExternalU8 ageIn with
  | Except.error e => Except.error e
  | Except.ok age =>
    match fromExternalBool historyIn with
    | Except.error e => Except.error e
    | Except.ok hasHistory =>
      match fromExternalBool chronicIn with
      | Except.error e => Except.error e
      | Except.ok hasChronic =>
        match fromExternalBool lifestyleIn with
        | Except.error e => Except.error e
        | Except.ok riskyLifestyle =>
          let category := evalCategory age hasHistory hasChronic riskyLifestyle
          let newState : ContractState :=
            { lastCategory := fun a => if a = sender then some category else st.lastCategory a,
              lastEvaluatedAt := fun a => if a = sender then blockTimestamp else st.lastEvaluatedAt a }
          let categoryHandle : Option Nat := some category
          Except.ok (newState, categoryHandle, ⟨sender, categoryHandle, blockTimestamp⟩)

/-- A transaction calling `checkEligibility`, with EVM revert semantics: on
a revert the pre-state is kept unchanged and no value or event is produced. -/
def callCheckEligibility (st : ContractState) (sender : Address) (blockTimestamp : Nat)
    (ageIn : EncInput Nat) (historyIn chronicIn lifestyleIn : EncInput Bool) :
    ContractState × Option (Option Nat × EligibilityEvaluated) :=
  match checkEligibility st sender blockTimestamp ageIn historyIn chronicIn lifestyleIn with
  | Except.ok (st2, handle, ev) => (st2, some (handle, ev))
  | Except.error _ => (st, none)

/-- The `getLastEligibility` view (contract lines 79-85): when the stored
`euint8` is initialized both outputs are filled in, otherwise the default
zero values are returned. -/
def getLastEligibility (st : ContractState) (account : Address) : Option Nat × Nat :=
  match st.lastCategory account with
  | some stored => (some stored, st.lastEvaluatedAt account)
  | none => (none, 0)

/-- A handle decrypts, under the matching authorization, to a plaintext. -/
def decryptsTo (handle : Option Nat) (plain : Nat) : Prop := handle = some plain

/- ### Generic facts about the circuit and the entry point -/

theorem evalCategory_eligible (a : Nat) (h1 : 18 ≤ a) (h2 : a ≤ 64) :
    evalCategory a false false false = CATEGORY_ELIGIBLE := by
  simp [evalCategory, fheSelect, h1, h2]

theorem evalCategory_moderate (a : Nat) (x y z : Bool) (h1 : 18 ≤ a) (h2 : a ≤ 64)
    (hany : ((x || y) || z) = true) :
    evalCategory a x y z = CATEGORY_MODERATE := by
  simp [evalCategory, fheSelect, h1, h2, hany]

theorem evalCategory_not_eligible (a : Nat) (x y z : Bool) (hout : a < 18 ∨ 64 < a) :
    evalCategory a x y z = CATEGORY_NOT_ELIGIBLE := by
  rcases hout with h | h <;>
    simp [evalCategory, fheSelect, Nat.not_le.mpr h, Nat.not_le.mpr h]

theorem evalCategory_range (a : Nat) (x y z : Bool) :
    evalCategory a x y z = CATEGORY_ELIGIBLE ∨ evalCategory a x y z = CATEGORY_MODERATE ∨
      evalCategory a x y z = CATEGORY_NOT_ELIGIBLE := by
  rcases Nat.lt_or_ge a 18 with h1 | h1
  · exact Or.inr (Or.inr (evalCategory_not_eligible a x y z (Or.inl h1)))
  rcases Nat.lt_or_ge 64 a with h2 | h2
  · exact Or.inr (Or.inr (evalCategory_not_eligible a x y z (Or.inr h2)))
  cases hx : x <;> cases hy : y <;> cases hz : z
  case false.false.false => exact Or.inl (evalCategory_eligible a h1 h2)
  all_goals exact Or.inr (Or.inl (evalCategory_moderate a _ _ _ h1 h2 (by simp)))

/-- When all four validity proofs verify, `checkEligibility` succeeds and
its outputs are exactly the updated storage, the handle of the computed
category and the event record. -/
theorem checkEligibility_eq_ok (st : ContractState) (sender ts : Nat)
    (ageIn : EncInput Nat) (hIn cIn lIn : EncInput Bool)
    (ha : ageIn.proofOk = true) (hh : hIn.proofOk = true)
    (hc : cIn.proofOk = true) (hl : lIn.proofOk = true) :
    checkEligibility st sender ts ageIn hIn cIn lIn =
      Except.ok
        ({ lastCategory := fun a =>
             if a = sender then some (evalCategory (ageIn.value % 256) hIn.value cIn.value lIn.value)
             else st.lastCategory a,
           lastEvaluatedAt := fun a => if a = sender then ts else st.lastEvaluatedAt a },
         some (evalCategory (ageIn.value % 256) hIn.value cIn.value lIn.value),
         ⟨sender, some (evalCategory (ageIn.value % 256) hIn.value cIn.value lIn.value), ts⟩) := by
  simp [checkEligibility, fromExternalU8, fromExternalBool, ha, hh, hc, hl]

/-- Any failing validity proof makes `checkEligibility` revert with
`proofVerificationError`. -/
theorem checkEligibility_eq_error (st : ContractState) (sender ts : Nat)
    (ageIn : EncInput Nat) (hIn cIn lIn : EncInput Bool)
    (hfail : ageIn.proofOk = false ∨ hIn.proofOk = false ∨ cIn.proofOk = false ∨
      lIn.proofOk = false) :
    checkEligibility st sender ts ageIn hIn cIn lIn =
      Except.error EvalError.proofVerificationError := by
  cases hpa : ageIn.proofOk <;> cases hph : hIn.proofOk <;>
    cases hpc : cIn.proofOk <;> cases hpl : lIn.proofOk <;>
    simp_all [checkEligibility, fromExternalU8, fromExternalBool]

/-- Inversion: a successful `checkEligibility` call determines the new
storage, the returned handle and the event. -/
theorem checkEligibility_ok_inv {st : ContractState} {sender ts : Nat}
    {ageIn : EncInput Nat} {hIn cIn lIn : EncInput Bool}
    {st2 : ContractState} {handle : Option Nat} {ev : EligibilityEvaluated}
    (h : checkEligibility st sender ts ageIn hIn cIn lIn = Except.ok (st2, handle, ev)) :
    handle = some (evalCategory (ageIn.value % 256) hIn.value cIn.value lIn.value) ∧
    st2.lastCategory = (fun a => if a = sender then handle else st.lastCategory a) ∧
    st2.lastEvaluatedAt = (fun a => if a = sender then ts else st.lastEvaluatedAt a) ∧
    ev = ⟨sender, handle, ts⟩ := by
  cases hpa : ageIn.proofOk <;> cases hph : hIn.proofOk <;>
    cases hpc : cIn.proofOk <;> cases hpl : lIn.proofOk
  case true.true.true.true =>
    rw [checkEligibility_eq_ok st sender ts ageIn hIn cIn lIn hpa hph hpc hpl] at h
    injection h with h2
    injection h2 with h1 h2
    injection h2 with h3 h4
    subst h1
    subst h3
    subst h4
    exact ⟨rfl, rfl, rfl, rfl⟩
  all_goals
    rw [checkEligibility_eq_error st sender ts ageIn hIn cIn lIn (by simp_all)] at h
  all_goals exact absurd h (by simp)

/- ### Reachable contract states

A contract state is reachable when it arises from the freshly deployed state
through a sequence of successful `checkEligibility` transactions (reverted
transactions leave the state untouched, so they need no rule).  The trace
records, per successful call, the sender, the block timestamp (nonzero on any
real chain) and the returned handle. -/

/-- One successful `checkEligibility` transaction as seen from outside. -/
structure CallRecord where
  sender : Address
  timestamp : Nat
  handle : Option Nat
deriving DecidableEq

/-- The most recent successful call made by `acct` in the trace. -/
def lastCallOf (tr : List CallRecord) (acct : Address) : Option CallRecord :=
  tr.reverse.find? fun c => decide (c.sender = acct)

inductive Reachable : ContractState → List CallRecord → Prop
  | init : Reachable initialState []
  | step {st : ContractState} {tr : List CallRecord} {sender ts : Nat}
      {ageIn : EncInput Nat} {hIn cIn lIn : EncInput Bool}
      {st2 : ContractState} {handle : Option Nat} {ev : EligibilityEvaluated} :
      Reachable st tr → 0 < ts →
      checkEligibility st sender ts ageIn hIn cIn lIn = Except.ok (st2, handle, ev) →
      Reachable st2 (tr ++ [⟨sender, ts, handle⟩])

theorem lastCallOf_append (tr : List CallRecord) (r : CallRecord) (acct : Address) :
    lastCallOf (tr ++ [r]) acct = if r.sender = acct then some r else lastCallOf tr acct := by
  simp only [lastCallOf, List.reverse_append, List.reverse_cons, List.reverse_nil,
    List.nil_append, List.cons_append, List.find?]
  by_cases h : r.sender = acct
  · simp [h]
  · simp [h]

theorem lastCallOf_nil (acct : Address) : lastCallOf [] acct = none := rfl

/-- Storage invariant along every reachable state: each account's two slots
hold exactly the data of its most recent successful call, and the zero
values when it never called successfully. -/
theorem reachable_record (st : ContractState) (tr : List CallRecord)
    (hr : Reachable st tr) (acct : Address) :
    (lastCallOf tr acct = none → st.lastCategory acct = none ∧ st.lastEvaluatedAt acct = 0) ∧
    (∀ c, lastCallOf tr acct = some c →
        st.lastCategory acct = c.handle ∧ st.lastEvaluatedAt acct = c.timestamp ∧
        c.sender = acct ∧ (∃ v, c.handle = some v) ∧ 0 < c.timestamp) := by
  induction hr with
  | init => exact ⟨fun _ => ⟨rfl, rfl⟩, fun c hc => absurd hc (by simp [lastCallOf_nil])⟩
  | @step st tr sender ts ageIn hIn cIn lIn st2 handle ev hre hts hok ih =>
    obtain ⟨hhandle, hcat, hat, hev⟩ := checkEligibility_ok_inv hok
    have hc2 : st2.lastCategory acct = if acct = sender then handle else st.lastCategory acct := by
      rw [hcat]
    have ha2 : st2.lastEvaluatedAt acct =
        if acct = sender then ts else st.lastEvaluatedAt acct := by
      rw [hat]
    rw [lastCallOf_append]
    by_cases hs : sender = acct
    · subst hs
      rw [if_pos rfl] at hc2 ha2
      rw [if_pos rfl]
      refine ⟨fun hc => by simp at hc, fun c hc => ?_⟩
      obtain rfl := (Option.some.inj hc).symm
      exact ⟨hc2, ha2, rfl, ⟨_, hhandle⟩, hts⟩
    · have hns : acct ≠ sender := fun h => hs h.symm
      rw [if_neg hs, hc2, if_neg hns, ha2, if_neg hns]
      exact ih

/- ### Claim theorems for the contract -/

/-- C1: for every age between 18 and 64 whose three risk flags are all false,
and validity proofs that verify, `checkEligibility` succeeds and returns an
encrypted category that decrypts to Eligible (1). -/
theorem checkEligibility_eligible_band_no_risk (st : ContractState) (sender ts : Nat)
    (ageIn : EncInput Nat) (hIn cIn lIn : EncInput Bool)
    (h1 : 18 ≤ ageIn.value) (h2 : ageIn.value ≤ 64)
    (hx : hIn.value = false) (hy : cIn.value = false) (hz : lIn.value = false)
    (ha : ageIn.proofOk = true) (hh : hIn.proofOk = true)
    (hc : cIn.proofOk = true) (hl : lIn.proofOk = true) :
    ∃ st2 handle ev,
      checkEligibility st sender ts ageIn hIn cIn lIn = Except.ok (st2, handle, ev) ∧
      decryptsTo handle CATEGORY_ELIGIBLE := by
  have key := checkEligibility_eq_ok st sender ts ageIn hIn cIn lIn ha hh hc hl
  have hmod : ageIn.value % 256 = ageIn.value := Nat.mod_eq_of_lt (by omega)
  rw [hmod, hx, hy, hz, evalCategory_eligible _ h1 h2] at key
  exact ⟨_, _, _, key, rfl⟩

/-- Witness for C1: age 30, all flags false, category 1. -/
theorem checkEligibility_eligible_band_no_risk_witness :
    ∃ st2 handle ev,
      checkEligibility initialState 7 100 ⟨30, true⟩ ⟨false, true⟩ ⟨false, true⟩ ⟨false, true⟩ =
        Except.ok (st2, handle, ev) ∧
      decryptsTo handle CATEGORY_ELIGIBLE :=
  checkEligibility_eligible_band_no_risk initialState 7 100 ⟨30, true⟩ ⟨false, true⟩
    ⟨false, true⟩ ⟨false, true⟩ (by decide) (by decide) rfl rfl rfl rfl rfl rfl rfl

/-- C2: for every age between 18 and 64 with at least one risk flag true,
and validity proofs that verify, `checkEligibility` succeeds and returns an
encrypted category that decrypts to Moderate (2). -/
theorem checkEligibility_moderate_band_any_risk (st : ContractState) (sender ts : Nat)
    (ageIn : EncInput Nat) (hIn cIn lIn : EncInput Bool)
    (h1 : 18 ≤ ageIn.value) (h2 : ageIn.value ≤ 64)
    (hany : hIn.value = true ∨ cIn.value = true ∨ lIn.value = true)
    (ha : ageIn.proofOk = true) (hh : hIn.proofOk = true)
    (hc : cIn.proofOk = true) (hl : lIn.proofOk = true) :
    ∃ st2 handle ev,
      checkEligibility st sender ts ageIn hIn cIn lIn = Except.ok (st2, handle, ev) ∧
      decryptsTo handle CATEGORY_MODERATE := by
  have key := checkEligibility_eq_ok st sender ts ageIn hIn cIn lIn ha hh hc hl
  have hmod : ageIn.value % 256 = ageIn.value := Nat.mod_eq_of_lt (by omega)
  have hcat := evalCategory_moderate ageIn.value hIn.value cIn.value lIn.value h1 h2
    (by rcases hany with h | h | h <;> simp [h])
  rw [hmod, hcat] at key
  exact ⟨_, _, _, key, rfl⟩

/-- Witness for C2: age 40, chronic flag true, category 2. -/
theorem checkEligibility_moderate_band_any_risk_witness :
    ∃ st2 handle ev,
      checkEligibility initialState 7 100 ⟨40, true⟩ ⟨false, true⟩ ⟨true, true⟩ ⟨false, true⟩ =
        Except.ok (st2, handle, ev) ∧
      decryptsTo handle CATEGORY_MODERATE :=
  checkEligibility_moderate_band_any_risk initialState 7 100 ⟨40, true⟩ ⟨false, true⟩
    ⟨true, true⟩ ⟨false, true⟩ (by decide) (by decide) (Or.inr (Or.inl rfl))
    rfl rfl rfl rfl

/-- C3: for every 8-bit age below 18 or above 64 and every risk triple,
`checkEligibility` returns an encrypted category that decrypts to
Not Eligible (3); at the band boundaries the circuit yields Not Eligible for
ages 17 and 65 and Eligible for ages 18 and 64 when all flags are false. -/
theorem checkEligibility_not_eligible_out_of_band (st : ContractState) (sender ts : Nat)
    (ageIn : EncInput Nat) (hIn cIn lIn : EncInput Bool)
    (h8 : ageIn.value ≤ 255) (hout : ageIn.value < 18 ∨ 64 < ageIn.value)
    (ha : ageIn.proofOk = true) (hh : hIn.proofOk = true)
    (hc : cIn.proofOk = true) (hl : lIn.proofOk = true) :
    (∃ st2 handle ev,
      checkEligibility st sender ts ageIn hIn cIn lIn = Except.ok (st2, handle, ev) ∧
      decryptsTo handle CATEGORY_NOT_ELIGIBLE) ∧
    evalCategory 17 false false false = CATEGORY_NOT_ELIGIBLE ∧
    evalCategory 65 false false false = CATEGORY_NOT_ELIGIBLE ∧
    evalCategory 18 false false false = CATEGORY_ELIGIBLE ∧
    evalCategory 64 false false false = CATEGORY_ELIGIBLE := by
  refine ⟨?_, by decide, by decide, by decide, by decide⟩
  have key := checkEligibility_eq_ok st sender ts ageIn hIn cIn lIn ha hh hc hl
  have hmod : ageIn.value % 256 = ageIn.value := Nat.mod_eq_of_lt (by omega)
  rw [hmod, evalCategory_not_eligible _ _ _ _ hout] at key
  exact ⟨_, _, _, key, rfl⟩

/-- Witness for C3: age 65 with a risk flag set still yields category 3. -/
theorem checkEligibility_not_eligible_out_of_band_witness :
    (∃ st2 handle ev,
      checkEligibility initialState 7 100 ⟨65, true⟩ ⟨true, true⟩ ⟨false, true⟩ ⟨false, true⟩ =
        Except.ok (st2, handle, ev) ∧
      decryptsTo handle CATEGORY_NOT_ELIGIBLE) ∧
    evalCategory 17 false false false = CATEGORY_NOT_ELIGIBLE ∧
    evalCategory 65 false false false = CATEGORY_NOT_ELIGIBLE ∧
    evalCategory 18 false false false = CATEGORY_ELIGIBLE ∧
    evalCategory 64 false false false = CATEGORY_ELIGIBLE :=
  checkEligibility_not_eligible_out_of_band initialState 7 100 ⟨65, true⟩ ⟨true, true⟩
    ⟨false, true⟩ ⟨false, true⟩ (by decide) (Or.inr (by decide)) rfl rfl rfl rfl

/-- C4: a successful `checkEligibility` overwrites the caller's stored record,
`getLastEligibility` then returns exactly the returned handle paired with the
block timestamp, and the emitted event carries (caller, handle, timestamp). -/
theorem checkEligibility_success_updates_record_and_emits (st : ContractState)
    (sender ts : Nat) (ageIn : EncInput Nat) (hIn cIn lIn : EncInput Bool)
    (ha : ageIn.proofOk = true) (hh : hIn.proofOk = true)
    (hc : cIn.proofOk = true) (hl : lIn.proofOk = true) :
    ∃ st2 handle ev,
      checkEligibility st sender ts ageIn hIn cIn lIn = Except.ok (st2, handle, ev) ∧
      getLastEligibility st2 sender = (handle, ts) ∧
      ev = ⟨sender, handle, ts⟩ := by
  refine ⟨_, _, _, checkEligibility_eq_ok st sender ts ageIn hIn cIn lIn ha hh hc hl, ?_, rfl⟩
  simp [getLastEligibility]

/-- Witness for C4 on a fresh contract and on a caller with an old record. -/
theorem checkEligibility_success_updates_record_and_emits_witness :
    ∃ st2 handle ev,
      checkEligibility initialState 7 100 ⟨30, true⟩ ⟨false, true⟩ ⟨true, true⟩ ⟨false, true⟩ =
        Except.ok (st2, handle, ev) ∧
      getLastEligibility st2 7 = (handle, 100) ∧
      ev = ⟨7, handle, 100⟩ :=
  checkEligibility_success_updates_record_and_emits initialState 7 100 ⟨30, true⟩
    ⟨false, true⟩ ⟨true, true⟩ ⟨false, true⟩ rfl rfl rfl rfl

/-- C5: when any of the four validity proofs fails to verify, the
transaction reverts atomically: the post-state is the pre-state, nothing is
returned or emitted, and every account reads the same record as before. -/
theorem checkEligibility_proof_failure_atomic (st : ContractState) (sender ts : Nat)
    (ageIn : EncInput Nat) (hIn cIn lIn : EncInput Bool)
    (hfail : ageIn.proofOk = false ∨ hIn.proofOk = false ∨ cIn.proofOk = false ∨
      lIn.proofOk = false) :
    callCheckEligibility st sender ts ageIn hIn cIn lIn = (st, none) ∧
    ∀ acct, getLastEligibility (callCheckEligibility st sender ts ageIn hIn cIn lIn).1 acct =
      getLastEligibility st acct := by
  have key := checkEligibility_eq_error st sender ts ageIn hIn cIn lIn hfail
  exact ⟨by simp [callCheckEligibility, key], fun acct => by simp [callCheckEligibility, key]⟩

/-- Witness for C5: an invalid chronic-flag proof leaves a populated state
untouched. -/
theorem checkEligibility_proof_failure_atomic_witness :
    callCheckEligibility initialState 7 100 ⟨30, true⟩ ⟨false, true⟩ ⟨false, false⟩
        ⟨false, true⟩ = (initialState, none) ∧
    ∀ acct,
      getLastEligibility
        (callCheckEligibility initialState 7 100 ⟨30, true⟩ ⟨false, true⟩ ⟨false, false⟩
          ⟨false, true⟩).1 acct =
      getLastEligibility initialState acct :=
  checkEligibility_proof_failure_atomic initialState 7 100 ⟨30, true⟩ ⟨false, true⟩
    ⟨false, false⟩ ⟨false, true⟩ (Or.inr (Or.inr (Or.inl rfl)))

/-- C6: an identity that never successfully called `checkEligibility` reads
the all-zero sentinel pair from `getLastEligibility`; the view is a total
function, so no revert or error is possible. -/
theorem getLastEligibility_never_evaluated_sentinel (st : ContractState)
    (tr : List CallRecord) (hr : Reachable st tr) (acct : Address)
    (hnever : ∀ c ∈ tr, c.sender ≠ acct) :
    getLastEligibility st acct = (none, 0) := by
  have hnone : lastCallOf tr acct = none := by
    rw [lastCallOf, List.find?_eq_none]
    intro c hcmem
    simpa using hnever c (List.mem_reverse.mp hcmem)
  obtain ⟨h1, h2⟩ := (reachable_record st tr hr acct).1 hnone
  simp [getLastEligibility, h1, h2]

/-- Witness for C6 on the freshly deployed contract. -/
theorem getLastEligibility_never_evaluated_sentinel_witness :
    getLastEligibility initialState 42 = (none, 0) :=
  getLastEligibility_never_evaluated_sentinel initialState [] Reachable.init 42
    (by intro c hcmem; exact absurd hcmem (List.not_mem_nil c))

/-- C7: a successful `checkEligibility` by one account changes only that
account's single storage slot pair; every other account reads the same
record before and after, and the caller's slot is overwritten in place. -/
theorem checkEligibility_frame_other_accounts (st : ContractState) (sender ts : Nat)
    (ageIn : EncInput Nat) (hIn cIn lIn : EncInput Bool)
    (ha : ageIn.proofOk = true) (hh : hIn.proofOk = true)
    (hc : cIn.proofOk = true) (hl : lIn.proofOk = true) :
    ∃ st2 handle ev,
      checkEligibility st sender ts ageIn hIn cIn lIn = Except.ok (st2, handle, ev) ∧
      (∀ b, b ≠ sender →
        st2.lastCategory b = st.lastCategory b ∧
        st2.lastEvaluatedAt b = st.lastEvaluatedAt b ∧
        getLastEligibility st2 b = getLastEligibility st b) ∧
      st2.lastCategory sender = handle ∧ st2.lastEvaluatedAt sender = ts := by
  refine ⟨_, _, _, checkEligibility_eq_ok st sender ts ageIn hIn cIn lIn ha hh hc hl,
    fun b hb => ⟨by simp [hb], by simp [hb], ?_⟩, by simp, by simp⟩
  simp [getLastEligibility, hb]

/-- Witness for C7 at concrete inputs. -/
theorem checkEligibility_frame_other_accounts_witness :
    ∃ st2 handle ev,
      checkEligibility initialState 7 100 ⟨30, true⟩ ⟨false, true⟩ ⟨false, true⟩ ⟨true, true⟩ =
        Except.ok (st2, handle, ev) ∧
      (∀ b, b ≠ 7 →
        st2.lastCategory b = initialState.lastCategory b ∧
        st2.lastEvaluatedAt b = initialState.lastEvaluatedAt b ∧
        getLastEligibility st2 b = getLastEligibility initialState b) ∧
      st2.lastCategory 7 = handle ∧ st2.lastEvaluatedAt 7 = 100 :=
  checkEligibility_frame_other_accounts initialState 7 100 ⟨30, true⟩ ⟨false, true⟩
    ⟨false, true⟩ ⟨true, true⟩ rfl rfl rfl rfl

/-- C9: for every 8-bit age and every flag triple with verifying proofs, the
category handle decrypts to one of 1, 2 or 3, never 0 or anything else. -/
theorem checkEligibility_category_always_valid (st : ContractState) (sender ts : Nat)
    (ageIn : EncInput Nat) (hIn cIn lIn : EncInput Bool)
    (h8 : ageIn.value ≤ 255)
    (ha : ageIn.proofOk = true) (hh : hIn.proofOk = true)
    (hc : cIn.proofOk = true) (hl : lIn.proofOk = true) :
    ∃ st2 handle ev,
      checkEligibility st sender ts ageIn hIn cIn lIn = Except.ok (st2, handle, ev) ∧
      (decryptsTo handle CATEGORY_ELIGIBLE ∨ decryptsTo handle CATEGORY_MODERATE ∨
        decryptsTo handle CATEGORY_NOT_ELIGIBLE) ∧
      ¬ decryptsTo handle 0 := by
  have hr := evalCategory_range (ageIn.value % 256) hIn.value cIn.value lIn.value
  refine ⟨_, _, _, checkEligibility_eq_ok st sender ts ageIn hIn cIn lIn ha hh hc hl, ?_, ?_⟩
  · rcases hr with h | h | h
    · exact Or.inl (congrArg some h)
    · exact Or.inr (Or.inl (congrArg some h))
    · exact Or.inr (Or.inr (congrArg some h))
  · intro hzero
    have hz2 : evalCategory (ageIn.value % 256) hIn.value cIn.value lIn.value = 0 :=
      Option.some.inj hzero
    rcases hr with h | h | h <;> rw [hz2] at h <;>
      simp [CATEGORY_ELIGIBLE, CATEGORY_MODERATE, CATEGORY_NOT_ELIGIBLE] at h

/-- Witness for C9 with an age far outside the 1..150 input band. -/
theorem checkEligibility_category_always_valid_witness :
    ∃ st2 handle ev,
      checkEligibility initialState 7 100 ⟨200, true⟩ ⟨true, true⟩ ⟨false, true⟩ ⟨true, true⟩ =
        Except.ok (st2, handle, ev) ∧
      (decryptsTo handle CATEGORY_ELIGIBLE ∨ decryptsTo handle CATEGORY_MODERATE ∨
        decryptsTo handle CATEGORY_NOT_ELIGIBLE) ∧
      ¬ decryptsTo handle 0 :=
  checkEligibility_category_always_valid initialState 7 100 ⟨200, true⟩ ⟨true, true⟩
    ⟨false, true⟩ ⟨true, true⟩ (by decide) rfl rfl rfl rfl

/-- C10: in every reachable state the pair read from `getLastEligibility` is
coherent: it is the all-zero pair exactly when the account never successfully
evaluated, otherwise it is the handle and nonzero timestamp stored by the
account's most recent successful call; mixed zero/nonzero pairs never occur
(block timestamps of successful calls being nonzero). -/
theorem getLastEligibility_coherent_pairs (st : ContractState) (tr : List CallRecord)
    (hr : Reachable st tr) (acct : Address) :
    (getLastEligibility st acct = (none, 0) ↔ lastCallOf tr acct = none) ∧
    (∀ c, lastCallOf tr acct = some c →
        getLastEligibility st acct = (c.handle, c.timestamp) ∧
        c.handle ≠ none ∧ c.timestamp ≠ 0) ∧
    ¬ ((getLastEligibility st acct).1 ≠ none ∧ (getLastEligibility st acct).2 = 0) ∧
    ¬ ((getLastEligibility st acct).1 = none ∧ (getLastEligibility st acct).2 ≠ 0) := by
  obtain ⟨hnone, hsome⟩ := reachable_record st tr hr acct
  cases hlc : lastCallOf tr acct with
  | none =>
    obtain ⟨h1, h2⟩ := hnone hlc
    have hg : getLastEligibility st acct = (none, 0) := by simp [getLastEligibility, h1, h2]
    refine ⟨by simp [hg], fun c hc => absurd hc (by simp), ?_, ?_⟩ <;>
      simp [hg]
  | some c =>
    obtain ⟨h1, h2, hcs, ⟨v, hv⟩, hts⟩ := hsome c hlc
    have hg : getLastEligibility st acct = (some v, c.timestamp) := by
      simp [getLastEligibility, h1, hv, h2]
    refine ⟨⟨fun hgz => ?_, fun hcz => absurd hcz (by simp)⟩, fun d hd => ?_, ?_, ?_⟩
    · rw [hg] at hgz
      exact absurd (congrArg Prod.fst hgz) (by simp)
    · have hdc : d = c := (Option.some.inj hd).symm
      subst hdc
      exact ⟨by rw [hg, hv], by simp [hv], by omega⟩
    · rw [hg]
      simp only [ne_eq, not_and]
      intro _
      omega
    · rw [hg]
      simp

/-- Witness for C10 on the freshly deployed contract. -/
theorem getLastEligibility_coherent_pairs_witness :
    (getLastEligibility initialState 0 = (none, 0) ↔ lastCallOf [] 0 = none) ∧
    (∀ c, lastCallOf [] 0 = some c →
        getLastEligibility initialState 0 = (c.handle, c.timestamp) ∧
        c.handle ≠ none ∧ c.timestamp ≠ 0) ∧
    ¬ ((getLastEligibility initialState 0).1 ≠ none ∧
        (getLastEligibility initialState 0).2 = 0) ∧
    ¬ ((getLastEligibility initialState 0).1 = none ∧
        (getLastEligibility initialState 0).2 ≠ 0) :=
  getLastEligibility_coherent_pairs initialState [] Reachable.init 0

end MediShield

/-!
Embedding of the submission workflow of the Next.js page (`handleSubmit`).
The page tracks a timeline state (`idle`, the four step keys, `complete`),
an error message, a success message, an in-flight flag and the last
evaluation result.  `runAttempt` models one `handleSubmit` invocation after
local validation has passed: the external world (the four encryptions, the
signature plus transaction send, the receipt wait, the decryption) is an
environment of `Except` outcomes consumed in source order; a thrown value
carries the optional numeric or string `code` and optional `message` fields
the handler inspects.
-/

namespace MediShieldUI

/-- The timeline state of the page: `idle`, one of the four step keys of
`TIMELINE_STEPS`, or `complete`. -/
inductive TimelineState
  | idle
  | encrypt
  | submit
  | process
  | decrypt
  | complete
deriving DecidableEq

/-- An error code as carried by a thrown wallet error: JS compares it both
against the number 4001 and against a string tag. -/
inductive ErrCode
  | num (n : Nat)
  | str (s : String)
deriving DecidableEq

/-- A thrown error as the handler sees it: optional code, optional message. -/
structure SignError where
  code : Option ErrCode
  message : Option String
deriving DecidableEq

/-- The text searched for in error messages. -/
def needleUserRejected : String := "user rejected"

/-- The string error code of an ethers user rejection. -/
def codeActionRejected : String := "ACTION_REJECTED"

/-- Error copy set when the signature is rejected inside the inner catch. -/
def msgSignRejected : String := "Transaction signature rejected. No data was sent."

/-- Error copy set by the outer catch for a user-rejected message. -/
def msgTxRejected : String := "Transaction rejected. No data was sent."

/-- Fallback error copy of the outer catch. -/
def msgGeneric : String := "Something went wrong. Please try again."

/-- Success copy set on completion. -/
def msgSuccess : String := "Eligibility result decrypted securely. Details below."

/-- Semantics of the JS `String.prototype.includes` test used by the page. -/
def containsText (s pat : String) : Bool := 2 ≤ (s.splitOn pat).length

/-- The user-rejection test of the inner catch: code 4001, the string code
`ACTION_REJECTED`, or a message containing the needle. -/
def isUserRejection (e : SignError) : Bool :=
  (e.code == some (ErrCode.num 4001)) || (e.code == some (ErrCode.str codeActionRejected)) ||
    (match e.message with
     | some m => containsText m needleUserRejected
     | none => false)

/-- The result object stored by a completed attempt. -/
structure EvalResult where
  category : Nat
  handle : Nat
  timestamp : Option Nat
  txHash : Option Nat
deriving DecidableEq

/-- The page state touched by `handleSubmit`. -/
structure UiState where
  timeline : TimelineState
  errorMessage : Option String
  successMessage : Option String
  isSubmitting : Bool
  evaluationResult : Option EvalResult
deriving DecidableEq

/-- Environment of one attempt: the outcome of each external interaction,
consumed in source order. -/
structure AttemptEnv where
  encryptResult : Except SignError Unit
  signResult : Except SignError Nat
  waitResult : Except SignError (Nat × Nat)
  decryptResult : Except SignError Nat

/-- The outer catch of `handleSubmit`: a message containing the needle gets
the dedicated copy, any other message is shown as is, a missing message
falls back to the generic copy; the timeline is reset. -/
def outerCatch (s : UiState) (e : SignError) : UiState :=
  let copy :=
    match e.message with
    | some m => if containsText m needleUserRejected then msgTxRejected else m
    | none => msgGeneric
  { s with errorMessage := some copy, timeline := TimelineState.idle }

/-- One `handleSubmit` invocation after local validation: clear messages,
raise the in-flight flag, walk the four phases, and in every exit path drop
the in-flight flag (the `finally` block).  A signature rejection in the
Submitting phase is caught by the inner catch, which stores the dedicated
copy and resets the timeline without consuming any later-phase outcome. -/
def runAttempt (s0 : UiState) (env : AttemptEnv) : UiState :=
  let s1 : UiState :=
    { s0 with
      errorMessage := none
      successMessage := none
      isSubmitting := true
      timeline := TimelineState.encrypt }
  let s9 :=
    match env.encryptResult with
    | Except.error e => outerCatch s1 e
    | Except.ok _ =>
      let s2 := { s1 with timeline := TimelineState.submit }
      match env.signResult with
      | Except.error e =>
        if isUserRejection e then
          { s2 with errorMessage := some msgSignRejected, timeline := TimelineState.idle }
        else outerCatch s2 e
      | Except.ok handle =>
        let s3 := { s2 with timeline := TimelineState.process }
        match env.waitResult with
        | Except.error e => outerCatch s3 e
        | Except.ok receipt =>
          let s4 := { s3 with timeline := TimelineState.decrypt }
          match env.decryptResult with
          | Except.error e => outerCatch s4 e
          | Except.ok category =>
            { s4 with
              evaluationResult := some ⟨category, handle, some receipt.1, some receipt.2⟩
              timeline := TimelineState.complete
              successMessage := some msgSuccess }
  { s9 with isSubmitting := false }

/-- C8: a signature rejection during the Submitting phase puts the attempt
into its terminal user-rejected failure presentation — the dedicated error
copy with the timeline reset, the code-level form of Failed(UserRejected) —
with no evaluation result produced; the outcome is independent of every
later-phase outcome, so nothing is retried inside the attempt and only a
new submission can try again. -/
theorem handleSubmit_user_rejection_terminal (s0 : UiState) (env : AttemptEnv)
    (e : SignError) (henc : env.encryptResult = Except.ok ())
    (hsig : env.signResult = Except.error e) (hrej : isUserRejection e = true) :
    runAttempt s0 env =
      { s0 with
        errorMessage := some msgSignRejected
        successMessage := none
        timeline := TimelineState.idle
        isSubmitting := false } ∧
    (runAttempt s0 env).evaluationResult = s0.evaluationResult ∧
    ∀ env2 : AttemptEnv, env2.encryptResult = Except.ok () →
      env2.signResult = Except.error e → runAttempt s0 env2 = runAttempt s0 env := by
  have hmain : ∀ envx : AttemptEnv, envx.encryptResult = Except.ok () →
      envx.signResult = Except.error e →
      runAttempt s0 envx =
        { s0 with
          errorMessage := some msgSignRejected
          successMessage := none
          timeline := TimelineState.idle
          isSubmitting := false } := by
    intro envx hencx hsigx
    simp [runAttempt, hencx, hsigx, hrej]
  refine ⟨hmain env henc hsig, ?_,
    fun env2 h1 h2 => (hmain env2 h1 h2).trans (hmain env henc hsig).symm⟩
  rw [hmain env henc hsig]

/-- Witness for C8: a 4001-coded rejection on an otherwise successful
environment ends idle with the rejection copy and no result. -/
theorem handleSubmit_user_rejection_terminal_witness :
    runAttempt ⟨TimelineState.idle, none, none, false, none⟩
        ⟨Except.ok (), Except.error ⟨some (ErrCode.num 4001), none⟩,
          Except.ok (5, 9), Except.ok 1⟩ =
      ⟨TimelineState.idle, some msgSignRejected, none, false, none⟩ :=
  (handleSubmit_user_rejection_terminal ⟨TimelineState.idle, none, none, false, none⟩
    ⟨Except.ok (), Except.error ⟨some (ErrCode.num 4001), none⟩,
      Except.ok (5, 9), Except.ok 1⟩
    ⟨some (ErrCode.num 4001), none⟩ rfl rfl (by decide)).1

end MediShieldUI
